import Mathlib

/-!
# Verification of the Lyrae risk and matching core

A shallow embedding, in Lean 4, of the balance, liquidation and event-queue
logic of the Lyrae program (`src/program/src/processor.rs`), together with
proofs of the frozen specification claims.

Numeric model: the program computes with `I80F48`, a signed 128-bit
fixed-point type with 48 fractional bits (the `fixed` Rust crate).  We
represent an `I80F48` value by its bit pattern, an `Int` `b` standing for the
real number `b / 2^48`.  Comparisons on values coincide with comparisons on
bit patterns.  Lossy operations (multiplication, division, floor, ceil)
round towards negative infinity at bit granularity, which we model with
`Int.fdiv`; checked operations fail (`Option.none` / `MathError`) when the
result leaves the 128-bit range.  Account-level primitives that live in the
repository's state module (not under `src/`) are modelled from the spec and
marked as such in their doc comments.
-/

namespace Lyrae

/-- Scale factor of the `I80F48` fixed-point representation: `2 ^ 48`. -/
def FRAC : Int := 2 ^ 48

/-- Smallest representable `I80F48` bit pattern (`i128::MIN`). -/
def I128_MIN : Int := -(2 ^ 127)

/-- Largest representable `I80F48` bit pattern (`i128::MAX`). -/
def I128_MAX : Int := 2 ^ 127 - 1

/-- The bit pattern of `ONE_I80F48`. -/
def ONE : Int := FRAC

/-- The bit pattern of `NEG_ONE_I80F48`, the dust threshold used when
re-checking `being_liquidated` (one native quote unit below zero). -/
def NEG_ONE : Int := -FRAC

/-- The bit pattern of `ZERO_I80F48`. -/
def ZERO : Int := 0

/-- Fixed-point multiplication on bit patterns: the wide product shifted
right by 48 bits, rounding towards negative infinity. -/
def fpMul (a b : Int) : Int := Int.fdiv (a * b) FRAC

/-- Fixed-point division on bit patterns: the dividend widened by 48 bits,
then divided, rounding towards negative infinity. -/
def fpDiv (a b : Int) : Int := Int.fdiv (a * FRAC) b

/-- The operation `I80F48::from_num` on an integer quantity: exact, scales by `2 ^ 48`. -/
def fromNum (n : Int) : Int := n * FRAC

/-- The operation `checked_floor`: round down to an integer-valued fixed-point number. -/
def fpFloor (a : Int) : Int := Int.fdiv a FRAC * FRAC

/-- The operation `checked_ceil().checked_to_num()`: round up and return the integer. -/
def ceilToInt (a : Int) : Int := -(Int.fdiv (-a) FRAC)

/-- The operation `checked_floor().checked_to_num()`: round down and return the integer. -/
def floorToInt (a : Int) : Int := Int.fdiv a FRAC

/-- Checked addition of two `I80F48` bit patterns: `None` on overflow of the
underlying 128-bit integer. -/
def checkedAdd (a b : Int) : Option Int :=
  if I128_MIN ≤ a + b ∧ a + b ≤ I128_MAX then some (a + b) else none

/-- Checked subtraction of two `I80F48` bit patterns. -/
def checkedSub (a b : Int) : Option Int :=
  if I128_MIN ≤ a - b ∧ a - b ≤ I128_MAX then some (a - b) else none

/-- Checked multiplication of two `I80F48` bit patterns. -/
def checkedMul (a b : Int) : Option Int :=
  if I128_MIN ≤ fpMul a b ∧ fpMul a b ≤ I128_MAX then some (fpMul a b) else none

/-- The error codes of the program that the embedded operations can surface
(`src/program/src/error.rs`). -/
inductive LyraeError where
  | InvalidParam
  | InsufficientFunds
  | InsufficientLiquidity
  | BeingLiquidated
  | NotLiquidatable
  | Bankrupt
  | InvalidOrderId
  | ClientIdNotFound
  | MathError
  | Default
  deriving DecidableEq, Repr

/-- Root-bank cache snapshot consumed by the balance operations: the deposit
and borrow scaling indices (`I80F48` bit patterns). -/
structure RootBankCache where
  deposit_index : Int
  borrow_index : Int
  deriving DecidableEq, Repr

/-- Node-bank aggregate balances (`I80F48` bit patterns). -/
structure NodeBank where
  deposits : Int
  borrows : Int
  deriving DecidableEq, Repr

/-- Per-market perpetual position of an account: base lots, quote value and
the long/short funding settlement snapshots (`I80F48` bit patterns except
`base_position`, an `i64` lot count). -/
structure PerpAccount where
  base_position : Int
  quote_position : Int
  long_settled_funding : Int
  short_settled_funding : Int
  deriving DecidableEq, Repr

/-- The slice of a `LyraeAccount` that the embedded operations touch:
per-token indexed deposits and borrows, per-market perp positions, and the
liquidation flags. -/
structure LyraeAccount where
  deposits : Nat → Int
  borrows : Nat → Int
  perp_accounts : Nat → PerpAccount
  being_liquidated : Bool
  is_bankrupt : Bool

/-- Modelled from the spec: `LyraeAccount::get_native_deposit` lives in the
repository's state module, which is not under `src/`.  Per §4.3, the native
balance is the stored indexed amount multiplied by the current deposit
index, with checked fixed-point arithmetic. -/
def get_native_deposit (rb : RootBankCache) (acc : LyraeAccount) (ti : Nat) : Option Int :=
  checkedMul (acc.deposits ti) rb.deposit_index

/-- Modelled from the spec: `LyraeAccount::get_native_borrow`, as for
`get_native_deposit` but with the borrow index. -/
def get_native_borrow (rb : RootBankCache) (acc : LyraeAccount) (ti : Nat) : Option Int :=
  checkedMul (acc.borrows ti) rb.borrow_index

/-- The free function `checked_add_deposit` of `processor.rs`: adds an
indexed quantity to the account's deposits and to the node bank's aggregate.
The two leaf mutations live in the state module (outside `src/`) and are
modelled from the spec as checked accumulation of indexed units. -/
def checked_add_deposit (nb : NodeBank) (acc : LyraeAccount) (ti : Nat) (q : Int) :
    Option (NodeBank × LyraeAccount) := do
  let d ← checkedAdd (acc.deposits ti) q
  let nd ← checkedAdd nb.deposits q
  pure ({ nb with deposits := nd },
        { acc with deposits := Function.update acc.deposits ti d })

/-- The free function `checked_sub_deposit` of `processor.rs`. -/
def checked_sub_deposit (nb : NodeBank) (acc : LyraeAccount) (ti : Nat) (q : Int) :
    Option (NodeBank × LyraeAccount) := do
  let d ← checkedSub (acc.deposits ti) q
  let nd ← checkedSub nb.deposits q
  pure ({ nb with deposits := nd },
        { acc with deposits := Function.update acc.deposits ti d })

/-- The free function `checked_add_borrow` of `processor.rs`. -/
def checked_add_borrow (nb : NodeBank) (acc : LyraeAccount) (ti : Nat) (q : Int) :
    Option (NodeBank × LyraeAccount) := do
  let b ← checkedAdd (acc.borrows ti) q
  let nbb ← checkedAdd nb.borrows q
  pure ({ nb with borrows := nbb },
        { acc with borrows := Function.update acc.borrows ti b })

/-- The free function `checked_sub_borrow` of `processor.rs`. -/
def checked_sub_borrow (nb : NodeBank) (acc : LyraeAccount) (ti : Nat) (q : Int) :
    Option (NodeBank × LyraeAccount) := do
  let b ← checkedSub (acc.borrows ti) q
  let nbb ← checkedSub nb.borrows q
  pure ({ nb with borrows := nbb },
        { acc with borrows := Function.update acc.borrows ti b })

/-- Modelled from the spec: `NodeBank::has_valid_deposits_borrows` lives in
the state module, outside `src/`.  Per §4.3, a borrow increase re-checks
that available vault liquidity remains non-negative, i.e. that total native
deposits cover total native borrows. -/
def has_valid_deposits_borrows (rb : RootBankCache) (nb : NodeBank) : Bool :=
  fpMul nb.borrows rb.borrow_index ≤ fpMul nb.deposits rb.deposit_index

/-- The function `checked_add_net` (`processor.rs`): if there are borrows, pay down
borrows first, then increase deposits.  `native_quantity` must be
non-negative. -/
def checked_add_net (rb : RootBankCache) (nb : NodeBank) (acc : LyraeAccount) (ti : Nat)
    (native_quantity : Int) : Option (NodeBank × LyraeAccount) :=
  if 0 < acc.borrows ti then do
    let native_borrows ← get_native_borrow rb acc ti
    if native_quantity < native_borrows then
      checked_sub_borrow nb acc ti (fpDiv native_quantity rb.borrow_index)
    else do
      let (nb, acc) ← checked_sub_borrow nb acc ti (acc.borrows ti)
      checked_add_deposit nb acc ti
        (fpDiv (native_quantity - native_borrows) rb.deposit_index)
  else
    checked_add_deposit nb acc ti (fpDiv native_quantity rb.deposit_index)

/-- The function `checked_sub_net` (`processor.rs`): if there are deposits, draw down
deposits first, then increase borrows.  A pure deposit drawdown returns
early; a path that increases borrows re-checks vault liquidity at the end
(`InsufficientLiquidity`).  `native_quantity` must be non-negative. -/
def checked_sub_net (rb : RootBankCache) (nb : NodeBank) (acc : LyraeAccount) (ti : Nat)
    (native_quantity : Int) : Option (NodeBank × LyraeAccount) :=
  if 0 < acc.deposits ti then do
    let native_deposits ← get_native_deposit rb acc ti
    if native_quantity < native_deposits then
      checked_sub_deposit nb acc ti (fpDiv native_quantity rb.deposit_index)
    else do
      let (nb1, acc1) ← checked_sub_deposit nb acc ti (acc.deposits ti)
      let st ← checked_add_borrow nb1 acc1 ti
        (fpDiv (native_quantity - native_deposits) rb.borrow_index)
      if has_valid_deposits_borrows rb st.1 then pure st else none
  else do
    let st ← checked_add_borrow nb acc ti (fpDiv native_quantity rb.borrow_index)
    if has_valid_deposits_borrows rb st.1 then pure st else none

/-- The function `checked_change_net` (`processor.rs`): credit with a positive native
quantity, debit with a negative one.  A failing call aborts without any
state change (the host executes each call all-or-nothing). -/
def checked_change_net (rb : RootBankCache) (nb : NodeBank) (acc : LyraeAccount) (ti : Nat)
    (native_quantity : Int) : Option (NodeBank × LyraeAccount) :=
  if native_quantity < 0 then checked_sub_net rb nb acc ti (-native_quantity)
  else if 0 < native_quantity then checked_add_net rb nb acc ti native_quantity
  else some (nb, acc)

/-- One external `checked_change_net` call applied to a node-bank/account
pair; a failed call leaves the state unchanged (all-or-nothing execution). -/
def change_net_step (st : NodeBank × LyraeAccount) (call : RootBankCache × Nat × Int) :
    NodeBank × LyraeAccount :=
  match checked_change_net call.1 st.1 st.2 call.2.1 call.2.2 with
  | some st' => st'
  | none => st

/-- A sequence of `checked_change_net` calls. -/
def run_change_nets (st : NodeBank × LyraeAccount) (calls : List (RootBankCache × Nat × Int)) :
    NodeBank × LyraeAccount :=
  calls.foldl change_net_step st

/-- Well-formedness of one token slot of an account: deposits and borrows
are non-negative and never simultaneously positive. -/
def tokOk (acc : LyraeAccount) (i : Nat) : Prop :=
  0 ≤ acc.deposits i ∧ 0 ≤ acc.borrows i ∧
    ¬(0 < acc.deposits i ∧ 0 < acc.borrows i)

instance (acc : LyraeAccount) (i : Nat) : Decidable (tokOk acc i) := by
  unfold tokOk; infer_instance

/-- The balance invariant of an account: every token slot is well formed. -/
def tokenInvariant (acc : LyraeAccount) : Prop :=
  ∀ i, tokOk acc i

theorem checkedAdd_some {a b c : Int} (h : checkedAdd a b = some c) : c = a + b := by
  unfold checkedAdd at h
  split at h
  · exact (Option.some_inj.mp h).symm
  · exact absurd h (by simp)

theorem checkedSub_some {a b c : Int} (h : checkedSub a b = some c) : c = a - b := by
  unfold checkedSub at h
  split at h
  · exact (Option.some_inj.mp h).symm
  · exact absurd h (by simp)

theorem checkedMul_some {a b c : Int} (h : checkedMul a b = some c) : c = fpMul a b := by
  unfold checkedMul at h
  split at h
  · exact (Option.some_inj.mp h).symm
  · exact absurd h (by simp)

theorem FRAC_pos : (0 : Int) < FRAC := by norm_num [FRAC]

theorem checked_sub_borrow_some {nb : NodeBank} {acc : LyraeAccount} {ti : Nat} {q : Int}
    {out : NodeBank × LyraeAccount} (h : checked_sub_borrow nb acc ti q = some out) :
    out.2 = { acc with borrows := Function.update acc.borrows ti (acc.borrows ti - q) } := by
  simp only [checked_sub_borrow, Option.bind_eq_bind, Option.bind_eq_some, Option.pure_def,
    Option.some.injEq] at h
  obtain ⟨b, hb, nbb, hnbb, hout⟩ := h
  rw [← hout, checkedSub_some hb]

theorem checked_add_borrow_some {nb : NodeBank} {acc : LyraeAccount} {ti : Nat} {q : Int}
    {out : NodeBank × LyraeAccount} (h : checked_add_borrow nb acc ti q = some out) :
    out.2 = { acc with borrows := Function.update acc.borrows ti (acc.borrows ti + q) } := by
  simp only [checked_add_borrow, Option.bind_eq_bind, Option.bind_eq_some, Option.pure_def,
    Option.some.injEq] at h
  obtain ⟨b, hb, nbb, hnbb, hout⟩ := h
  rw [← hout, checkedAdd_some hb]

theorem checked_sub_deposit_some {nb : NodeBank} {acc : LyraeAccount} {ti : Nat} {q : Int}
    {out : NodeBank × LyraeAccount} (h : checked_sub_deposit nb acc ti q = some out) :
    out.2 = { acc with deposits := Function.update acc.deposits ti (acc.deposits ti - q) } := by
  simp only [checked_sub_deposit, Option.bind_eq_bind, Option.bind_eq_some, Option.pure_def,
    Option.some.injEq] at h
  obtain ⟨b, hb, nbb, hnbb, hout⟩ := h
  rw [← hout, checkedSub_some hb]

theorem checked_add_deposit_some {nb : NodeBank} {acc : LyraeAccount} {ti : Nat} {q : Int}
    {out : NodeBank × LyraeAccount} (h : checked_add_deposit nb acc ti q = some out) :
    out.2 = { acc with deposits := Function.update acc.deposits ti (acc.deposits ti + q) } := by
  simp only [checked_add_deposit, Option.bind_eq_bind, Option.bind_eq_some, Option.pure_def,
    Option.some.injEq] at h
  obtain ⟨b, hb, nbb, hnbb, hout⟩ := h
  rw [← hout, checkedAdd_some hb]

theorem fpDiv_nonneg {a b : Int} (ha : 0 ≤ a) (hb : 0 ≤ b) : 0 ≤ fpDiv a b :=
  Int.fdiv_nonneg (mul_nonneg ha (le_of_lt FRAC_pos)) hb

/-- Key rounding bound: if a native quantity is strictly below the native
value of `x` indexed units, then converting it back to indexed units (with
floor division) yields strictly fewer than `x` units. -/
theorem fpDiv_lt_of_lt_fpMul {q x idx : Int} (hidx : 0 < idx)
    (hq : q < fpMul x idx) : fpDiv q idx < x := by
  unfold fpDiv
  unfold fpMul at hq
  rw [Int.fdiv_eq_ediv _ (le_of_lt hidx)]
  rw [Int.fdiv_eq_ediv _ (le_of_lt FRAC_pos)] at hq
  rw [Int.ediv_lt_iff_lt_mul hidx]
  have h2 : (q + 1) * FRAC ≤ x * idx / FRAC * FRAC :=
    mul_le_mul_of_nonneg_right (by omega) (le_of_lt FRAC_pos)
  have h3 : x * idx / FRAC * FRAC ≤ x * idx := Int.ediv_mul_le _ (ne_of_gt FRAC_pos)
  nlinarith [FRAC_pos]

/-- Crediting preserves well-formedness of the touched slot and leaves all
other slots unchanged. -/
theorem checked_add_net_tokOk {rb : RootBankCache} {nb : NodeBank} {acc : LyraeAccount}
    {ti : Nat} {q : Int} {out : NodeBank × LyraeAccount}
    (hbi : 0 < rb.borrow_index) (hdi : 0 < rb.deposit_index) (hq : 0 < q)
    (hok : tokOk acc ti) (h : checked_add_net rb nb acc ti q = some out) :
    tokOk out.2 ti ∧
      ∀ j, j ≠ ti → out.2.deposits j = acc.deposits j ∧ out.2.borrows j = acc.borrows j := by
  obtain ⟨hd, hb, hnb⟩ := hok
  unfold checked_add_net at h
  split at h
  case isTrue hbpos =>
    have hdz : acc.deposits ti = 0 := by
      rcases lt_or_eq_of_le hd with h' | h'
      · exact absurd ⟨h', hbpos⟩ hnb
      · omega
    simp only [Option.bind_eq_bind, Option.bind_eq_some] at h
    obtain ⟨native_borrows, hmul, h⟩ := h
    have hnbval := checkedMul_some hmul
    subst hnbval
    split at h
    case isTrue hlt =>
      have hacc := checked_sub_borrow_some h
      have hsub : fpDiv q rb.borrow_index < acc.borrows ti :=
        fpDiv_lt_of_lt_fpMul hbi hlt
      refine ⟨⟨?_, ?_, ?_⟩, ?_⟩
      · rw [hacc]; simpa using hd
      · rw [hacc]; simp only [Function.update_same]; omega
      · rw [hacc]; simp only [Function.update_same]; omega
      · intro j hj; rw [hacc]; simp [Function.update_noteq hj]
    case isFalse hge =>
      simp only [Option.bind_eq_some] at h
      obtain ⟨⟨nb1, acc1⟩, hsub, hadd⟩ := h
      have hacc1 : acc1 = { acc with borrows := Function.update acc.borrows ti 0 } := by
        have := checked_sub_borrow_some hsub
        simpa using this
      have hacc2 := checked_add_deposit_some hadd
      have hdelta : 0 ≤ fpDiv (q - fpMul (acc.borrows ti) rb.borrow_index) rb.deposit_index :=
        fpDiv_nonneg (by omega) (le_of_lt hdi)
      subst hacc1
      refine ⟨⟨?_, ?_, ?_⟩, ?_⟩
      · rw [hacc2]; simp only [Function.update_same]; simpa using (by omega : 0 ≤ acc.deposits ti + fpDiv (q - fpMul (acc.borrows ti) rb.borrow_index) rb.deposit_index)
      · rw [hacc2]; simp [Function.update_same]
      · rw [hacc2]; simp [Function.update_same]
      · intro j hj; rw [hacc2]; simp [Function.update_noteq hj]
  case isFalse hbneg =>
    have hbz : acc.borrows ti = 0 := by omega
    have hacc := checked_add_deposit_some h
    have hdelta : 0 ≤ fpDiv q rb.deposit_index := fpDiv_nonneg (le_of_lt hq) (le_of_lt hdi)
    refine ⟨⟨?_, ?_, ?_⟩, ?_⟩
    · rw [hacc]; simp only [Function.update_same]; omega
    · rw [hacc]; simpa using hb
    · rw [hacc]; simp only [Function.update_same]; omega
    · intro j hj; rw [hacc]; simp [Function.update_noteq hj]

/-- Debiting preserves well-formedness of the touched slot and leaves all
other slots unchanged. -/
theorem checked_sub_net_tokOk {rb : RootBankCache} {nb : NodeBank} {acc : LyraeAccount}
    {ti : Nat} {q : Int} {out : NodeBank × LyraeAccount}
    (hbi : 0 < rb.borrow_index) (hdi : 0 < rb.deposit_index) (hq : 0 < q)
    (hok : tokOk acc ti) (h : checked_sub_net rb nb acc ti q = some out) :
    tokOk out.2 ti ∧
      ∀ j, j ≠ ti → out.2.deposits j = acc.deposits j ∧ out.2.borrows j = acc.borrows j := by
  obtain ⟨hd, hb, hnb⟩ := hok
  unfold checked_sub_net at h
  split at h
  case isTrue hdpos =>
    have hbz : acc.borrows ti = 0 := by
      rcases lt_or_eq_of_le hb with h' | h'
      · exact absurd ⟨hdpos, h'⟩ hnb
      · omega
    simp only [Option.bind_eq_bind, Option.bind_eq_some] at h
    obtain ⟨native_deposits, hmul, h⟩ := h
    have hndval := checkedMul_some hmul
    subst hndval
    split at h
    case isTrue hlt =>
      have hacc := checked_sub_deposit_some h
      have hsub : fpDiv q rb.deposit_index < acc.deposits ti :=
        fpDiv_lt_of_lt_fpMul hdi hlt
      refine ⟨⟨?_, ?_, ?_⟩, ?_⟩
      · rw [hacc]; simp only [Function.update_same]; omega
      · rw [hacc]; simpa using hb
      · rw [hacc]; simp only [Function.update_same]; omega
      · intro j hj; rw [hacc]; simp [Function.update_noteq hj]
    case isFalse hge =>
      simp only [Option.bind_eq_some] at h
      obtain ⟨⟨nb0, acc0⟩, hsubd, h⟩ := h
      obtain ⟨st, haddb, hcheck⟩ := h
      have hacc0 : acc0 = { acc with deposits := Function.update acc.deposits ti 0 } := by
        have := checked_sub_deposit_some hsubd
        simpa using this
      have hacc1 := checked_add_borrow_some haddb
      have hdelta : 0 ≤ fpDiv (q - fpMul (acc.deposits ti) rb.deposit_index) rb.borrow_index :=
        fpDiv_nonneg (by omega) (le_of_lt hbi)
      have hst : st = out := by
        split at hcheck
        · simpa using hcheck
        · exact absurd hcheck (by simp)
      subst hst
      subst hacc0
      refine ⟨⟨?_, ?_, ?_⟩, ?_⟩
      · rw [hacc1]; simp [Function.update_same]
      · rw [hacc1]; simp only [Function.update_same]
        simpa using (by omega :
          0 ≤ acc.borrows ti + fpDiv (q - fpMul (acc.deposits ti) rb.deposit_index) rb.borrow_index)
      · rw [hacc1]; simp [Function.update_same]
      · intro j hj; rw [hacc1]; simp [Function.update_noteq hj]
  case isFalse hdneg =>
    have hdz : acc.deposits ti = 0 := by omega
    simp only [Option.bind_eq_bind, Option.bind_eq_some] at h
    obtain ⟨st, haddb, hcheck⟩ := h
    have hacc := checked_add_borrow_some haddb
    have hdelta : 0 ≤ fpDiv q rb.borrow_index := fpDiv_nonneg (le_of_lt hq) (le_of_lt hbi)
    have hst : st = out := by
      split at hcheck
      · simpa using hcheck
      · exact absurd hcheck (by simp)
    subst hst
    refine ⟨⟨?_, ?_, ?_⟩, ?_⟩
    · rw [hacc]; simpa using hd
    · rw [hacc]; simp only [Function.update_same]; omega
    · rw [hacc]; simp only [Function.update_same]; omega
    · intro j hj; rw [hacc]; simp [Function.update_noteq hj]

/-- One `checked_change_net` call preserves the whole-account invariant. -/
theorem checked_change_net_invariant {rb : RootBankCache} {nb : NodeBank} {acc : LyraeAccount}
    {ti : Nat} {q : Int} {out : NodeBank × LyraeAccount}
    (hbi : 0 < rb.borrow_index) (hdi : 0 < rb.deposit_index)
    (hinv : tokenInvariant acc) (h : checked_change_net rb nb acc ti q = some out) :
    tokenInvariant out.2 := by
  unfold checked_change_net at h
  split at h
  case isTrue hneg =>
    have hstep := checked_sub_net_tokOk hbi hdi (by omega) (hinv ti) h
    intro i
    by_cases hi : i = ti
    · rw [hi]; exact hstep.1
    · obtain ⟨hdj, hbj⟩ := hstep.2 i hi
      unfold tokOk
      rw [hdj, hbj]
      exact hinv i
  case isFalse hnneg =>
    split at h
    case isTrue hpos =>
      have hstep := checked_add_net_tokOk hbi hdi hpos (hinv ti) h
      intro i
      by_cases hi : i = ti
      · rw [hi]; exact hstep.1
      · obtain ⟨hdj, hbj⟩ := hstep.2 i hi
        unfold tokOk
        rw [hdj, hbj]
        exact hinv i
    case isFalse hz =>
      simp only [Option.some.injEq] at h
      rw [← h]
      exact hinv

/-- C1: crediting via `checked_change_net` with a positive native quantity
pays down any existing borrow before adding to deposits, and debiting draws
down any existing deposit before adding to borrows, so after any sequence of
`checked_change_net` calls (with positive bank indices, starting from any
account satisfying the balance invariant, e.g. an empty one) no token slot
ever has both deposits and borrows positive. -/
theorem checked_change_net_sequence_never_both_positive
    (calls : List (RootBankCache × Nat × Int)) (nb : NodeBank) (acc : LyraeAccount)
    (hidx : ∀ c ∈ calls, 0 < c.1.deposit_index ∧ 0 < c.1.borrow_index)
    (hinv : tokenInvariant acc) :
    ∀ i, ¬(0 < (run_change_nets (nb, acc) calls).2.deposits i ∧
           0 < (run_change_nets (nb, acc) calls).2.borrows i) := by
  have main : tokenInvariant (run_change_nets (nb, acc) calls).2 := by
    induction calls generalizing nb acc with
    | nil => simpa [run_change_nets] using hinv
    | cons c cs ih =>
      have hc := hidx c (List.mem_cons_self _ _)
      have hstep : tokenInvariant (change_net_step (nb, acc) c).2 := by
        unfold change_net_step
        cases hcc : checked_change_net c.1 nb acc c.2.1 c.2.2 with
        | none => simpa using hinv
        | some st' => exact checked_change_net_invariant hc.2 hc.1 hinv hcc
      have hrest := ih (change_net_step (nb, acc) c).1 (change_net_step (nb, acc) c).2
        (fun c' hc' => hidx c' (List.mem_cons_of_mem _ hc')) hstep
      simpa [run_change_nets, List.foldl_cons] using hrest
  intro i
  exact (main i).2.2

/-- A fresh root-bank cache with both indices at one. -/
def exampleRootBank : RootBankCache := ⟨FRAC, FRAC⟩

/-- An empty account. -/
def exampleAccount : LyraeAccount := ⟨fun _ => 0, fun _ => 0, fun _ => ⟨0, 0, 0, 0⟩, false, false⟩

/-- A concrete sequence of credits and debits on token 0. -/
def exampleCalls : List (RootBankCache × Nat × Int) :=
  [(exampleRootBank, 0, 5 * FRAC), (exampleRootBank, 0, -2 * FRAC),
   (exampleRootBank, 0, -7 * FRAC)]

theorem checked_change_net_sequence_never_both_positive_witness :
    ¬(0 < (run_change_nets (⟨0, 0⟩, exampleAccount) exampleCalls).2.deposits 0 ∧
      0 < (run_change_nets (⟨0, 0⟩, exampleAccount) exampleCalls).2.borrows 0) :=
  checked_change_net_sequence_never_both_positive exampleCalls ⟨0, 0⟩ exampleAccount
    (by decide) (fun i => by constructor <;> [exact le_refl 0; constructor] <;> simp [exampleAccount]) 0

/-- The health gate at the tail of `place_perp_order` (`processor.rs`): after
the being-liquidated gate and the reduce-only clamp, a nonzero order is
accepted only if the resulting Initial health is non-negative, or health was
negative before the order and did not decrease.  `pre_health` and
`post_health` are the account's Initial health before and after the order
(an `I80F48` bit pattern); `quantity` is the order quantity after the
reduce-only clamp; the pair returned is the account's Initial health after
the call together with its `being_liquidated` flag. -/
def place_perp_order_gate (being_liquidated : Bool) (pre_health quantity post_health : Int) :
    Except LyraeError (Int × Bool) :=
  if being_liquidated then
    if 0 ≤ pre_health then
      place_perp_order_order_path false pre_health quantity post_health
    else .error .BeingLiquidated
  else
    place_perp_order_order_path being_liquidated pre_health quantity post_health
where
  /-- The order path: the reduce-only early return, then the final
  `InsufficientFunds` health check of `place_perp_order`. -/
  place_perp_order_order_path (bl : Bool) (pre_health quantity post_health : Int) :
      Except LyraeError (Int × Bool) :=
    let health_up_only := pre_health < 0
    if quantity = 0 then .ok (pre_health, bl)
    else if 0 ≤ post_health ∨ (health_up_only ∧ pre_health ≤ post_health) then
      .ok (post_health, bl)
    else .error .InsufficientFunds

/-- C2: a successful `place_perp_order` leaves Initial health non-negative
when it was non-negative before, and no lower than before when it was
negative before; an order that would violate this fails with
`InsufficientFunds`. -/
theorem place_perp_order_health_monotone (being_liquidated : Bool)
    (pre_health quantity post_health : Int) :
    (∀ h bl, place_perp_order_gate being_liquidated pre_health quantity post_health =
        .ok (h, bl) →
      (0 ≤ pre_health → 0 ≤ h) ∧ (pre_health < 0 → pre_health ≤ h)) ∧
    (quantity ≠ 0 → ¬(0 ≤ post_health ∨ (pre_health < 0 ∧ pre_health ≤ post_health)) →
      (being_liquidated = false ∨ 0 ≤ pre_health) →
      place_perp_order_gate being_liquidated pre_health quantity post_health =
        .error .InsufficientFunds) := by
  constructor
  · intro h bl hok
    unfold place_perp_order_gate place_perp_order_gate.place_perp_order_order_path at hok
    split at hok
    · split at hok
      · simp only at hok
        split at hok
        · simp only [Except.ok.injEq, Prod.mk.injEq] at hok
          omega
        · split at hok
          · simp only [Except.ok.injEq, Prod.mk.injEq] at hok
            omega
          · exact absurd hok (by simp)
      · exact absurd hok (by simp)
    · simp only at hok
      split at hok
      · simp only [Except.ok.injEq, Prod.mk.injEq] at hok
        omega
      · split at hok
        · simp only [Except.ok.injEq, Prod.mk.injEq] at hok
          omega
        · exact absurd hok (by simp)
  · intro hqz hviol hgate
    unfold place_perp_order_gate place_perp_order_gate.place_perp_order_order_path
    split
    · split
      · simp only
        rw [if_neg hqz, if_neg hviol]
      · rcases hgate with hgate | hgate
        · simp_all
        · omega
    · simp only
      rw [if_neg hqz, if_neg hviol]

theorem place_perp_order_health_monotone_witness :
    (0 ≤ (5 : Int) → 0 ≤ (3 : Int)) ∧ ((5 : Int) < 0 → (5 : Int) ≤ 3) :=
  (place_perp_order_health_monotone false 5 1 3).1 3 false (by rfl)

/-- The inputs of the token-for-token liquidation transfer computation:
the liqee's Initial health, the two oracle prices, the two liquidation fee
factors (`assetFee = 1 + liquidationFee`, `liabFee = 1 − liquidationFee`,
both `1` for the quote token), the Initial weights, the liqee's native
deposit in the asset token and native borrow in the liability token, and
the liquidator's requested cap.  All are `I80F48` bit patterns. -/
structure TokenLiqInputs where
  init_health : Int
  asset_price : Int
  liab_price : Int
  asset_fee : Int
  liab_fee : Int
  init_asset_weight : Int
  init_liab_weight : Int
  native_deposits : Int
  native_borrows : Int
  max_liab_transfer : Int
  deriving DecidableEq, Repr

/-- The transfer amounts computed by `liquidate_token_and_token`
(`processor.rs`): the liability amount actually transferred and the asset
amount given to the liquidator in exchange, with the source's exact
fixed-point expression structure. -/
def liquidate_token_and_token_transfer (p : TokenLiqInputs) : Int × Int :=
  let deficit_max_liab := fpDiv (-p.init_health)
    (fpMul p.liab_price
      (p.init_liab_weight - fpDiv (fpMul p.init_asset_weight p.asset_fee) p.liab_fee))
  let asset_implied_liab_transfer :=
    fpDiv (fpMul (fpMul p.native_deposits p.asset_price) p.liab_fee)
      (fpMul p.liab_price p.asset_fee)
  let actual_liab_transfer :=
    min (min (min deficit_max_liab p.native_borrows) p.max_liab_transfer)
      asset_implied_liab_transfer
  let asset_transfer :=
    fpDiv (fpMul (fpMul actual_liab_transfer p.liab_price) p.asset_fee)
      (fpMul p.liab_fee p.asset_price)
  (actual_liab_transfer, asset_transfer)

/-- The spec's deficit formula for token-for-token liquidation (§4.5):
`deficit = -initHealth / (liabPrice × (initLiabWeight − initAssetWeight ×
assetFee / liabFee))`, written from the spec's words for comparison with
the source computation. -/
def spec_token_deficit (p : TokenLiqInputs) : Int :=
  fpDiv (-p.init_health)
    (fpMul p.liab_price
      (p.init_liab_weight - fpDiv (fpMul p.init_asset_weight p.asset_fee) p.liab_fee))

/-- The spec's bound from the liqee's full asset balance: the liability
amount implied by converting the entire asset deposit at the price/fee
ratio, written from the spec's words. -/
def spec_asset_implied_liab (p : TokenLiqInputs) : Int :=
  fpDiv (fpMul (fpMul p.native_deposits p.asset_price) p.liab_fee)
    (fpMul p.liab_price p.asset_fee)

/-- The spec's inverse price/fee ratio for the asset side:
`liab_transfer × liabPrice × assetFee / (liabFee × assetPrice)`, written
from the spec's words. -/
def spec_asset_side (p : TokenLiqInputs) (liab_transfer : Int) : Int :=
  fpDiv (fpMul (fpMul liab_transfer p.liab_price) p.asset_fee)
    (fpMul p.liab_fee p.asset_price)

/-- C3: in `liquidate_token_and_token` the liability amount transferred is
the minimum of the spec's deficit, the liqee's pre-transfer native borrow,
the liquidator's requested cap and the amount implied by the liqee's full
asset deposit; the asset side is the inverse price/fee ratio of that
amount; and the transfer never exceeds the pre-transfer native borrow. -/
theorem liquidate_token_and_token_transfer_spec (p : TokenLiqInputs) :
    (liquidate_token_and_token_transfer p).1 =
      min (min (min (spec_token_deficit p) p.native_borrows) p.max_liab_transfer)
        (spec_asset_implied_liab p) ∧
    (liquidate_token_and_token_transfer p).2 =
      spec_asset_side p (liquidate_token_and_token_transfer p).1 ∧
    (liquidate_token_and_token_transfer p).1 ≤ p.native_borrows := by
  refine ⟨rfl, rfl, ?_⟩
  unfold liquidate_token_and_token_transfer
  simp only
  exact le_trans (min_le_left _ _) (le_trans (min_le_left _ _) (min_le_right _ _))

/-- The liquidation-state flags of an account. -/
structure LiqFlags where
  being_liquidated : Bool
  is_bankrupt : Bool
  deriving DecidableEq, Repr

/-- The shared epilogue of `liquidate_token_and_token`,
`liquidate_token_and_perp` and `liquidate_perp_market` (`processor.rs`):
after the transfer, require the liquidator's resulting Initial health to be
non-negative (`InsufficientFunds` otherwise), then, if the liqee's
Maintenance health is still negative, set `is_bankrupt` from
`check_enter_bankruptcy` (a state-module predicate, passed here as the
boolean `enter_bankruptcy`); otherwise set `being_liquidated` exactly when
the liqee's resulting Initial health is below `NEG_ONE_I80F48`. -/
def liquidation_epilogue (liqor_init_health liqee_maint_health liqee_init_health : Int)
    (enter_bankruptcy : Bool) (flags : LiqFlags) : Except LyraeError LiqFlags :=
  if liqor_init_health < 0 then .error .InsufficientFunds
  else if liqee_maint_health < 0 then .ok { flags with is_bankrupt := enter_bankruptcy }
  else .ok { flags with being_liquidated := decide (liqee_init_health < NEG_ONE) }

/-- C4: every liquidation transfer fails with `InsufficientFunds` unless the
liquidator's resulting Initial health is non-negative; on success, if the
liqee's Maintenance health is still negative only `is_bankrupt` may be set,
and otherwise `being_liquidated` remains set exactly when the liqee's
resulting Initial health is below minus one native quote unit. -/
theorem liquidation_epilogue_flags (a m i : Int) (eb : Bool) (fl fl' : LiqFlags) :
    (liquidation_epilogue a m i eb fl = .ok fl' →
      0 ≤ a ∧
      (m < 0 → fl'.is_bankrupt = eb ∧ fl'.being_liquidated = fl.being_liquidated) ∧
      (0 ≤ m → fl'.being_liquidated = decide (i < NEG_ONE) ∧ fl'.is_bankrupt = fl.is_bankrupt)) ∧
    (a < 0 → liquidation_epilogue a m i eb fl = .error .InsufficientFunds) := by
  constructor
  · intro hok
    unfold liquidation_epilogue at hok
    split at hok
    · exact absurd hok (by simp)
    case isFalse ha =>
      refine ⟨by omega, ?_, ?_⟩
      · intro hm
        rw [if_pos hm] at hok
        simp only [Except.ok.injEq] at hok
        rw [← hok]
        exact ⟨rfl, rfl⟩
      · intro hm
        rw [if_neg (by omega)] at hok
        simp only [Except.ok.injEq] at hok
        rw [← hok]
        exact ⟨rfl, rfl⟩
  · intro ha
    unfold liquidation_epilogue
    rw [if_pos ha]

theorem liquidation_epilogue_flags_witness :
    0 ≤ (7 : Int) ∧
    ((-1 : Int) < 0 → (LiqFlags.mk true true).is_bankrupt = true ∧
      (LiqFlags.mk true true).being_liquidated = (LiqFlags.mk true false).being_liquidated) ∧
    (0 ≤ (-1 : Int) → (LiqFlags.mk true true).being_liquidated = decide ((0 : Int) < NEG_ONE) ∧
      (LiqFlags.mk true true).is_bankrupt = (LiqFlags.mk true false).is_bankrupt) :=
  (liquidation_epilogue_flags 7 (-1) 0 true ⟨true, false⟩ ⟨true, true⟩).1 (by rfl)

/-- An event of the perp event queue, carrying the accounts it references:
a fill names its maker and taker, an out names the owner whose order slot it
frees, and a liquidate record is record-only.  Account addresses are
abstracted to natural numbers. -/
inductive QEvent where
  | fill (maker taker : Nat)
  | out (owner : Nat)
  | liquidate
  deriving DecidableEq, Repr

/-- Whether all accounts referenced by an event are among the accounts
supplied to `consume_events`, in the source's lookup order (maker first,
then taker, for a fill; the owner for an out; none for a liquidate). -/
def event_accounts_present (accs : List Nat) : QEvent → Bool
  | .fill maker taker =>
      if maker = taker then accs.contains maker
      else accs.contains maker && accs.contains taker
  | .out owner => accs.contains owner
  | .liquidate => true

/-- The `consume_events` loop (`processor.rs`): up to `limit` iterations,
peek the front event; if an account it references is not supplied, return
success without popping; otherwise apply its effects and only then pop it.
The per-event effects (`execute_maker`, `execute_taker`, `remove_order`)
live in the state module outside `src/` and are abstracted as the parameter
`exec`, which may fail; a failure aborts the whole call. -/
def consume_events {α : Type} (exec : α → QEvent → Except LyraeError α) (accs : List Nat) :
    Nat → α → List QEvent → Except LyraeError (α × List QEvent)
  | 0, st, q => .ok (st, q)
  | _ + 1, st, [] => .ok (st, [])
  | n + 1, st, e :: rest =>
      if event_accounts_present accs e then
        match exec st e with
        | .error err => .error err
        | .ok st' => consume_events exec accs n st' rest
      else .ok (st, e :: rest)

/-- Sequential application of event effects, front to back. -/
def apply_events {α : Type} (exec : α → QEvent → Except LyraeError α) :
    α → List QEvent → Except LyraeError α
  | st, [] => .ok st
  | st, e :: rest =>
      match exec st e with
      | .error err => .error err
      | .ok st' => apply_events exec st' rest

/-- C5: a successful `consume_events` call pops exactly a prefix of the
queue, in FIFO order, applying each popped event's effects before popping
it (the final state is the in-order application of the popped prefix), and
when the front event references an account that was not supplied, the call
returns success with the queue and state untouched, leaving the event at
the front for a retry. -/
theorem consume_events_fifo {α : Type} (exec : α → QEvent → Except LyraeError α)
    (accs : List Nat) (limit : Nat) (st : α) (q : List QEvent) (st' : α) (q' : List QEvent)
    (h : consume_events exec accs limit st q = .ok (st', q')) :
    (∃ k, k ≤ limit ∧ k ≤ q.length ∧ q' = q.drop k ∧
      apply_events exec st (q.take k) = .ok st') ∧
    (∀ e rest, q = e :: rest → event_accounts_present accs e = false →
      st' = st ∧ q' = q) := by
  induction limit generalizing st q with
  | zero =>
    simp only [consume_events, Except.ok.injEq, Prod.mk.injEq] at h
    exact ⟨⟨0, by omega, by omega, by simp [h.2], by simp [apply_events, h.1]⟩,
      fun e rest hq hp => ⟨h.1.symm, h.2.symm⟩⟩
  | succ n ih =>
    match q with
    | [] =>
      simp only [consume_events, Except.ok.injEq, Prod.mk.injEq] at h
      exact ⟨⟨0, by omega, by simp, by simp [h.2], by simp [apply_events, h.1]⟩,
        fun e rest hq => by simp at hq⟩
    | e :: rest =>
      simp only [consume_events] at h
      split at h
      case isTrue hp =>
        have hne : ∀ e' rest', e :: rest = e' :: rest' →
            event_accounts_present accs e' = false → st' = st ∧ q' = e :: rest := by
          intro e' rest' hq hfp
          rw [List.cons.injEq] at hq
          rw [hq.1] at hp
          rw [hp] at hfp
          exact absurd hfp (by simp)
        split at h
        · exact absurd h (by simp)
        case h_2 st1 hexec =>
          obtain ⟨⟨k, hk, hklen, hdrop, happ⟩, _⟩ := ih st1 rest h
          refine ⟨⟨k + 1, by omega, by simpa using hklen, by simpa using hdrop, ?_⟩, hne⟩
          simp only [List.take_succ_cons, apply_events, hexec]
          exact happ
      case isFalse hp =>
        simp only [Except.ok.injEq, Prod.mk.injEq] at h
        refine ⟨⟨0, by omega, by simp, by simp [h.2], by simp [apply_events, h.1]⟩, ?_⟩
        intro e' rest' hq hfp
        exact ⟨h.1.symm, h.2.symm⟩

theorem consume_events_fifo_witness :
    (∃ k, k ≤ 2 ∧ k ≤ [QEvent.out 1, QEvent.fill 2 3].length ∧
      ([QEvent.fill 2 3] : List QEvent) = [QEvent.out 1, QEvent.fill 2 3].drop k ∧
      apply_events (fun s _ => .ok (s + 1)) (0 : Nat)
        ([QEvent.out 1, QEvent.fill 2 3].take k) = .ok 1) ∧
    (∀ e rest, ([QEvent.out 1, QEvent.fill 2 3] : List QEvent) = e :: rest →
      event_accounts_present [1, 2] e = false →
      (1 : Nat) = 0 ∧ ([QEvent.fill 2 3] : List QEvent) = [QEvent.out 1, QEvent.fill 2 3]) :=
  consume_events_fifo (fun s _ => .ok (s + 1)) [1, 2] 2 0
    [QEvent.out 1, QEvent.fill 2 3] 1 [QEvent.fill 2 3] (by rfl)

/-- The quote token occupies the last of the sixteen token slots (constant
of the repository's state module, outside `src/`). -/
def QUOTE_INDEX : Nat := 15

/-- Which leg of a token/perp liquidation is which (`AssetType`). -/
inductive AssetType where
  | Token
  | Perp
  deriving DecidableEq, Repr

/-- The risk parameters of a spot market consumed by liquidation: the
liquidation fee and the Initial weights (`I80F48` bit patterns). -/
structure SpotMarketInfo where
  liquidation_fee : Int
  init_asset_weight : Int
  init_liab_weight : Int
  deriving DecidableEq, Repr

/-- Replace the perp account of one market. -/
def LyraeAccount.setPerp (acc : LyraeAccount) (i : Nat) (pa : PerpAccount) : LyraeAccount :=
  { acc with perp_accounts := Function.update acc.perp_accounts i pa }

/-- Modelled from the spec: `PerpAccount::transfer_quote_position` lives in
the state module outside `src/`; it moves a quote amount from one perp
account to the other (§4.5, the perp quote-position transfer leg). -/
def transfer_quote_position (a b : PerpAccount) (quantity : Int) : PerpAccount × PerpAccount :=
  ({ a with quote_position := a.quote_position - quantity },
   { b with quote_position := b.quote_position + quantity })

/-- The function `transfer_token_internal` (`processor.rs`): a paired token transfer
through `checked_change_net`, crediting before debiting so that a failure
of either leg aborts the pair. -/
def transfer_token_internal (rb : RootBankCache) (nb : NodeBank) (src dst : LyraeAccount)
    (token_index : Nat) (native_quantity : Int) :
    Option (NodeBank × LyraeAccount × LyraeAccount) :=
  if 0 < native_quantity then do
    let (nb1, dst1) ← checked_change_net rb nb dst token_index native_quantity
    let (nb2, src1) ← checked_change_net rb nb1 src token_index (-native_quantity)
    some (nb2, src1, dst1)
  else if native_quantity < 0 then do
    let (nb1, src1) ← checked_change_net rb nb src token_index (-native_quantity)
    let (nb2, dst1) ← checked_change_net rb nb1 dst token_index native_quantity
    some (nb2, src1, dst1)
  else some (nb, src, dst)

/-- The transfer core of `liquidate_token_and_perp` (`processor.rs`), after
the liquidation gate: checks and transfer of both branches, in source
order.  When the token is the asset leg, the liability is a negative perp
quote position; otherwise a positive perp quote position is the asset and a
token borrow the liability.  Either way the liqee's base position on the
perp market whose quote position is transferred must be exactly zero before
any transfer happens.  The liquidator-health check and flag update that
follow in the source are `liquidation_epilogue`; market-existence and
account-plumbing checks on external accounts are not modelled. -/
def liquidate_token_and_perp_core (spot_markets : Nat → SpotMarketInfo)
    (get_price : Nat → Int) (rb : RootBankCache) (nb : NodeBank)
    (liqee liqor : LyraeAccount) (asset_type : AssetType) (asset_index liab_index : Nat)
    (init_health max_liab_transfer : Int) :
    Except LyraeError (NodeBank × LyraeAccount × LyraeAccount) :=
  if ¬0 < max_liab_transfer then .error .InvalidParam
  else match asset_type with
  | .Token =>
    let asset_price := get_price asset_index
    let liab_price := ONE
    if ¬0 < liqee.deposits asset_index then .error .Default
    else if liab_index = QUOTE_INDEX then .error .Default
    else
      let native_borrows := -(liqee.perp_accounts liab_index).quote_position
      if ¬(liqee.perp_accounts liab_index).base_position = 0 then .error .Default
      else if ¬0 < native_borrows then .error .Default
      else
        let asset_fee := if asset_index = QUOTE_INDEX then ONE
          else ONE + (spot_markets asset_index).liquidation_fee
        let init_asset_weight := if asset_index = QUOTE_INDEX then ONE
          else (spot_markets asset_index).init_asset_weight
        let liab_fee := ONE
        let init_liab_weight := ONE
        match get_native_deposit rb liqee asset_index with
        | none => .error .MathError
        | some native_deposits =>
          let deficit_max_liab := if asset_index = QUOTE_INDEX then native_deposits
            else fpDiv (-init_health)
              (fpMul liab_price
                (init_liab_weight - fpDiv (fpMul init_asset_weight asset_fee) liab_fee))
          let asset_implied_liab_transfer :=
            fpDiv (fpMul (fpMul native_deposits asset_price) liab_fee)
              (fpMul liab_price asset_fee)
          let actual_liab_transfer :=
            min (min (min deficit_max_liab native_borrows) max_liab_transfer)
              asset_implied_liab_transfer
          let lp := transfer_quote_position (liqee.perp_accounts liab_index)
            (liqor.perp_accounts liab_index) (-actual_liab_transfer)
          let liqee := liqee.setPerp liab_index lp.1
          let liqor := liqor.setPerp liab_index lp.2
          let asset_transfer :=
            fpDiv (fpMul (fpMul actual_liab_transfer liab_price) asset_fee)
              (fpMul liab_fee asset_price)
          match transfer_token_internal rb nb liqee liqor asset_index asset_transfer with
          | none => .error .MathError
          | some st => .ok st
  | .Perp =>
    let asset_price := ONE
    let liab_price := get_price liab_index
    if ¬0 < liqee.borrows liab_index then .error .Default
    else if asset_index = QUOTE_INDEX then .error .Default
    else if ¬(liqee.perp_accounts asset_index).base_position = 0 then .error .Default
    else
      let native_deposits := (liqee.perp_accounts asset_index).quote_position
      if ¬0 < native_deposits then .error .Default
      else
        let asset_fee := ONE
        let init_asset_weight := ONE
        let liab_fee := if liab_index = QUOTE_INDEX then ONE
          else ONE - (spot_markets liab_index).liquidation_fee
        let init_liab_weight := if liab_index = QUOTE_INDEX then ONE
          else (spot_markets liab_index).init_liab_weight
        match get_native_borrow rb liqee liab_index with
        | none => .error .MathError
        | some native_borrows =>
          let deficit_max_liab := if liab_index = QUOTE_INDEX then native_borrows
            else fpDiv (-init_health)
              (fpMul liab_price
                (init_liab_weight - fpDiv (fpMul init_asset_weight asset_fee) liab_fee))
          let asset_implied_liab_transfer :=
            fpDiv (fpMul (fpMul native_deposits asset_price) liab_fee)
              (fpMul liab_price asset_fee)
          let actual_liab_transfer :=
            min (min (min deficit_max_liab native_borrows) max_liab_transfer)
              asset_implied_liab_transfer
          let asset_transfer :=
            fpDiv (fpMul (fpMul actual_liab_transfer liab_price) asset_fee)
              (fpMul liab_fee asset_price)
          match transfer_token_internal rb nb liqor liqee liab_index actual_liab_transfer with
          | none => .error .MathError
          | some st =>
            let nb1 := st.1
            let liqor1 := st.2.1
            let liqee1 := st.2.2
            let lp := transfer_quote_position (liqee1.perp_accounts asset_index)
              (liqor1.perp_accounts asset_index) asset_transfer
            .ok (nb1, liqee1.setPerp asset_index lp.1, liqor1.setPerp asset_index lp.2)

/-- C7: `liquidate_token_and_perp` succeeds only when the liqee's base
position on the perp market whose quote position is transferred is exactly
zero, whether the perp leg is the liability (token asset branch) or the
asset (token liability branch); with a nonzero base position every path
fails before any transfer. -/
theorem liquidate_token_and_perp_requires_zero_base
    (spot_markets : Nat → SpotMarketInfo) (get_price : Nat → Int) (rb : RootBankCache)
    (nb : NodeBank) (liqee liqor : LyraeAccount) (asset_type : AssetType)
    (asset_index liab_index : Nat) (init_health max_liab_transfer : Int)
    (h : (liquidate_token_and_perp_core spot_markets get_price rb nb liqee liqor
      asset_type asset_index liab_index init_health max_liab_transfer).isOk = true) :
    (asset_type = .Token → (liqee.perp_accounts liab_index).base_position = 0) ∧
    (asset_type = .Perp → (liqee.perp_accounts asset_index).base_position = 0) := by
  unfold liquidate_token_and_perp_core at h
  split at h
  · simp [Except.isOk, Except.toBool] at h
  · cases asset_type with
    | Token =>
      refine ⟨fun _ => ?_, fun hne => by simp at hne⟩
      simp only at h
      split at h
      · simp [Except.isOk, Except.toBool] at h
      · split at h
        · simp [Except.isOk, Except.toBool] at h
        · split at h
          case isTrue => simp [Except.isOk, Except.toBool] at h
          case isFalse hbase => omega
    | Perp =>
      refine ⟨fun hne => by simp at hne, fun _ => ?_⟩
      simp only at h
      split at h
      · simp [Except.isOk, Except.toBool] at h
      · split at h
        · simp [Except.isOk, Except.toBool] at h
        · split at h
          case isTrue => simp [Except.isOk, Except.toBool] at h
          case isFalse hbase => omega

/-- Spot-market parameters for the concrete token-and-perp run: no
liquidation fee, Initial asset weight one half, Initial liability weight
one. -/
def c7spot : Nat → SpotMarketInfo := fun _ => ⟨0, FRAC / 2, FRAC⟩

/-- A liqee holding ten units of token 0 and a flat perp position on
market 1 with a negative quote position of five. -/
def c7liqee : LyraeAccount :=
  ⟨fun i => if i = 0 then 10 * FRAC else 0, fun _ => 0,
   fun i => if i = 1 then ⟨0, -5 * FRAC, 0, 0⟩ else ⟨0, 0, 0, 0⟩, true, false⟩

/-- An empty liquidator. -/
def c7liqor : LyraeAccount := ⟨fun _ => 0, fun _ => 0, fun _ => ⟨0, 0, 0, 0⟩, false, false⟩

set_option maxRecDepth 8000 in
theorem liquidate_token_and_perp_requires_zero_base_witness :
    (AssetType.Token = AssetType.Token → ((c7liqee).perp_accounts 1).base_position = 0) ∧
    (AssetType.Token = AssetType.Perp → ((c7liqee).perp_accounts 0).base_position = 0) :=
  liquidate_token_and_perp_requires_zero_base c7spot (fun _ => FRAC) ⟨FRAC, FRAC⟩
    ⟨100 * FRAC, 0⟩ c7liqee c7liqor .Token 0 1 (-2 * FRAC) (3 * FRAC) (by decide)

/-- Outcome of the shared liquidation entry gate: an early success that
only clears the flag, a fall-through into the transfer logic, or a
`NotLiquidatable` rejection. -/
inductive GateResult (σ : Type) where
  | early (st : σ)
  | proceed (st : σ)
  | notLiquidatable

/-- Whether the gate took the early-success path. -/
def gateIsEarly {σ : Type} : GateResult σ → Bool
  | .early _ => true
  | _ => false

/-- The state carried by the gate result (`dflt` for the rejection case,
which carries none). -/
def gateState {σ : Type} (dflt : σ) : GateResult σ → σ
  | .early st => st
  | .proceed st => st
  | .notLiquidatable => dflt

/-- The shared entry gate of the three liquidation calls (`processor.rs`):
if the liqee is flagged `being_liquidated` and its Initial health is now
positive, clear the flag and return success immediately; if unflagged and
Maintenance health is non-negative, fail with `NotLiquidatable`; otherwise
flag the account and proceed to the transfer. -/
def liquidation_gate (init_health maint_health : Int) (acc : LyraeAccount) :
    GateResult LyraeAccount :=
  if acc.being_liquidated then
    if 0 < init_health then .early { acc with being_liquidated := false }
    else .proceed acc
  else if 0 ≤ maint_health then .notLiquidatable
  else .proceed { acc with being_liquidated := true }

/-- Modelled from the spec (§4.6): `PerpAccount::settle_funding` lives in
the state module outside `src/`.  It realizes the funding accrued since the
last settlement, the difference of the cumulative accumulator and the
settlement snapshot times the base position (the long accumulator for
longs, the short one for shorts), into the quote position, then advances
both settlement snapshots. -/
def settle_funding (pa : PerpAccount) (long_funding short_funding : Int) : PerpAccount :=
  let pa1 :=
    if 0 < pa.base_position then
      let q := pa.quote_position -
        fpMul (long_funding - pa.long_settled_funding) (fromNum pa.base_position)
      { pa with quote_position := q }
    else if pa.base_position < 0 then
      let q := pa.quote_position -
        fpMul (short_funding - pa.short_settled_funding) (fromNum pa.base_position)
      { pa with quote_position := q }
    else pa
  { pa1 with long_settled_funding := long_funding, short_settled_funding := short_funding }

/-- The prefix of `liquidate_perp_market` up to and including the entry
gate (`processor.rs`): both the liqee and the liquidator settle funding on
the market before the gate runs, so the gate's early success path commits
those settlements.  The health inputs are the liqee's values computed after
settlement. -/
def liquidate_perp_market_pre_gate (long_funding short_funding : Int) (market_index : Nat)
    (liqee liqor : LyraeAccount) (init_health maint_health : Int) :
    GateResult (LyraeAccount × LyraeAccount) :=
  let liqee1 := liqee.setPerp market_index
    (settle_funding (liqee.perp_accounts market_index) long_funding short_funding)
  let liqor1 := liqor.setPerp market_index
    (settle_funding (liqor.perp_accounts market_index) long_funding short_funding)
  match liquidation_gate init_health maint_health liqee1 with
  | .early st => .early (st, liqor1)
  | .proceed st => .proceed (st, liqor1)
  | .notLiquidatable => .notLiquidatable

/-- A liqee flagged `being_liquidated`, long one lot with no funding yet
settled. -/
def c10liqee : LyraeAccount :=
  ⟨fun _ => 0, fun _ => 0, fun _ => ⟨1, 0, 0, 0⟩, true, false⟩

/-- An empty liquidator for the perp-market run. -/
def c10liqor : LyraeAccount := ⟨fun _ => 0, fun _ => 0, fun _ => ⟨0, 0, 0, 0⟩, false, false⟩

/-- C10 counterexample: a `liquidate_perp_market` call on a liqee whose
`being_liquidated` flag is set and whose Initial health is positive takes
the early success path, yet the liqee's quote position on the market has
changed (pending funding was settled before the gate), so the call is not
the pure flag-clear the claim describes. -/
theorem liquidate_perp_market_early_return_mutates :
    gateIsEarly (liquidate_perp_market_pre_gate FRAC 0 0 c10liqee c10liqor 5 5) = true ∧
    ((gateState (c10liqee, c10liqor)
        (liquidate_perp_market_pre_gate FRAC 0 0 c10liqee c10liqor 5 5)).1.perp_accounts 0
      ).quote_position = -FRAC ∧
    (c10liqee.perp_accounts 0).quote_position = 0 :=
  ⟨rfl, by decide, rfl⟩

/-- C10 (amended): a liquidation call on a liqee whose `being_liquidated`
flag is set but whose Initial health is positive returns success after
clearing the flag; for `liquidate_token_and_token` and
`liquidate_token_and_perp` nothing else about either account changes, while
`liquidate_perp_market` additionally commits the funding settlements of
both accounts on that one market, which is the identity when no funding is
pending. -/
theorem liquidation_early_return_frame (init maint lf sf : Int) (mi : Nat)
    (acc liqee liqor : LyraeAccount)
    (hbl : acc.being_liquidated = true) (hbl2 : liqee.being_liquidated = true)
    (hinit : 0 < init) :
    (gateIsEarly (liquidation_gate init maint acc) = true ∧
      (gateState acc (liquidation_gate init maint acc)).deposits = acc.deposits ∧
      (gateState acc (liquidation_gate init maint acc)).borrows = acc.borrows ∧
      (gateState acc (liquidation_gate init maint acc)).perp_accounts = acc.perp_accounts ∧
      (gateState acc (liquidation_gate init maint acc)).is_bankrupt = acc.is_bankrupt ∧
      (gateState acc (liquidation_gate init maint acc)).being_liquidated = false) ∧
    (gateIsEarly (liquidate_perp_market_pre_gate lf sf mi liqee liqor init maint) = true ∧
      (gateState (liqee, liqor)
        (liquidate_perp_market_pre_gate lf sf mi liqee liqor init maint)).1.deposits =
          liqee.deposits ∧
      (gateState (liqee, liqor)
        (liquidate_perp_market_pre_gate lf sf mi liqee liqor init maint)).1.borrows =
          liqee.borrows ∧
      (gateState (liqee, liqor)
        (liquidate_perp_market_pre_gate lf sf mi liqee liqor init maint)).1.is_bankrupt =
          liqee.is_bankrupt ∧
      (gateState (liqee, liqor)
        (liquidate_perp_market_pre_gate lf sf mi liqee liqor init maint)).1.being_liquidated =
          false ∧
      (gateState (liqee, liqor)
        (liquidate_perp_market_pre_gate lf sf mi liqee liqor init maint)).1.perp_accounts =
          Function.update liqee.perp_accounts mi
            (settle_funding (liqee.perp_accounts mi) lf sf) ∧
      (gateState (liqee, liqor)
        (liquidate_perp_market_pre_gate lf sf mi liqee liqor init maint)).2 =
          liqor.setPerp mi (settle_funding (liqor.perp_accounts mi) lf sf)) ∧
    (∀ pa : PerpAccount,
      settle_funding pa pa.long_settled_funding pa.short_settled_funding = pa) := by
  refine ⟨?_, ?_, ?_⟩
  · unfold liquidation_gate
    rw [hbl, if_pos rfl, if_pos hinit]
    exact ⟨rfl, rfl, rfl, rfl, rfl, rfl⟩
  · have hgate : liquidation_gate init maint
        (liqee.setPerp mi (settle_funding (liqee.perp_accounts mi) lf sf)) =
        .early { liqee.setPerp mi (settle_funding (liqee.perp_accounts mi) lf sf) with
                 being_liquidated := false } := by
      unfold liquidation_gate
      rw [show (liqee.setPerp mi
        (settle_funding (liqee.perp_accounts mi) lf sf)).being_liquidated = true from hbl2]
      rw [if_pos rfl, if_pos hinit]
    simp only [liquidate_perp_market_pre_gate]
    rw [hgate]
    exact ⟨rfl, rfl, rfl, rfl, rfl, rfl, rfl⟩
  · intro pa
    obtain ⟨bp, qp, lsf, ssf⟩ := pa
    unfold settle_funding
    simp only [sub_self, fpMul, Int.zero_mul, Int.zero_fdiv, sub_zero]
    split
    · rfl
    · split
      · rfl
      · rfl

theorem liquidation_early_return_frame_witness :
    gateIsEarly (liquidation_gate 5 (-1) c10liqee) = true ∧
    (gateState c10liqee (liquidation_gate 5 (-1) c10liqee)).being_liquidated = false :=
  have h := liquidation_early_return_frame 5 (-1) 0 0 0 c10liqee c10liqee c10liqor
    rfl rfl (by decide)
  ⟨h.1.1, h.1.2.2.2.2.2⟩

/-- Side of a resting perp order. -/
inductive Side where
  | bid
  | ask
  deriving DecidableEq, Repr

/-- One open-order slot of an account: the 128-bit order id, the client
order id and the side. -/
structure OrderSlot where
  order_id : Int
  client_id : Nat
  side : Side
  deriving DecidableEq, Repr

/-- Modelled from the spec (§4.1): `LyraeAccount::find_order_side` lives in
the state module outside `src/`; the cancel instructions locate the target
order through the account's per-slot order index. -/
def find_order_side (orders : List OrderSlot) (order_id : Int) : Option Side :=
  (orders.find? (fun o => o.order_id == order_id)).map (fun o => o.side)

/-- Modelled from the spec (§4.1): `LyraeAccount::find_order_with_client_id`,
the client-order-id variant of the per-slot lookup. -/
def find_order_with_client_id (orders : List OrderSlot) (client_id : Nat) :
    Option (Int × Side) :=
  (orders.find? (fun o => o.client_id == client_id)).map (fun o => (o.order_id, o.side))

/-- The function `cancel_perp_order` (`processor.rs`): locate the target order through
the account's per-slot index, failing with `InvalidOrderId` before touching
anything when it is absent; the book removal, slot release and incentive
payout that follow (the book module is outside `src/`) are abstracted as
`rest`, whose error case carries the state mutated so far, because the
dispatch wrapper can turn such an error into a committed success. -/
def cancel_perp_order {σ : Type} (st : σ) (orders : List OrderSlot) (order_id : Int)
    (rest : Side → Except (LyraeError × σ) σ) : Except (LyraeError × σ) σ :=
  match find_order_side orders order_id with
  | none => .error (.InvalidOrderId, st)
  | some side => rest side

/-- The function `cancel_perp_order_by_client_id` (`processor.rs`): as
`cancel_perp_order`, but locating by client order id and failing with
`ClientIdNotFound` when absent. -/
def cancel_perp_order_by_client_id {σ : Type} (st : σ) (orders : List OrderSlot)
    (client_id : Nat) (rest : Int → Side → Except (LyraeError × σ) σ) :
    Except (LyraeError × σ) σ :=
  match find_order_with_client_id orders client_id with
  | none => .error (.ClientIdNotFound, st)
  | some os => rest os.1 os.2

/-- The dispatch wrapper for `CancelPerpOrder` (`processor.rs`, `process`):
with `invalid_id_ok` set, an `InvalidOrderId` failure becomes a success
committing whatever state the call reached; any other error is returned
unchanged, rolling the call back. -/
def process_cancel_perp_order {σ : Type} (invalid_id_ok : Bool) (st : σ)
    (orders : List OrderSlot) (order_id : Int)
    (rest : Side → Except (LyraeError × σ) σ) : Except LyraeError σ :=
  match cancel_perp_order st orders order_id rest with
  | .ok st' => .ok st'
  | .error (e, st_err) =>
      if invalid_id_ok ∧ e = .InvalidOrderId then .ok st_err else .error e

/-- The dispatch wrapper for `CancelPerpOrderByClientId`: with the flag set
both `InvalidOrderId` and `ClientIdNotFound` become successes. -/
def process_cancel_perp_order_by_client_id {σ : Type} (invalid_id_ok : Bool) (st : σ)
    (orders : List OrderSlot) (client_id : Nat)
    (rest : Int → Side → Except (LyraeError × σ) σ) : Except LyraeError σ :=
  match cancel_perp_order_by_client_id st orders client_id rest with
  | .ok st' => .ok st'
  | .error (e, st_err) =>
      if invalid_id_ok ∧ (e = .InvalidOrderId ∨ e = .ClientIdNotFound) then .ok st_err
      else .error e

/-- C8: a cancel whose target order is absent fails with `InvalidOrderId`
(`ClientIdNotFound` for the client-id variant) before mutating anything,
unless `invalid_id_ok` is set, in which case it returns success with the
state untouched; errors other than these pass through the wrapper unchanged
even when the flag is set. -/
theorem cancel_perp_order_invalid_id_ok {σ : Type} (st : σ) (orders : List OrderSlot)
    (order_id : Int) (client_id : Nat) (rest : Side → Except (LyraeError × σ) σ)
    (restc : Int → Side → Except (LyraeError × σ) σ) (flag : Bool) :
    (find_order_side orders order_id = none →
      process_cancel_perp_order false st orders order_id rest = .error .InvalidOrderId ∧
      process_cancel_perp_order true st orders order_id rest = .ok st) ∧
    (find_order_with_client_id orders client_id = none →
      process_cancel_perp_order_by_client_id false st orders client_id restc =
        .error .ClientIdNotFound ∧
      process_cancel_perp_order_by_client_id true st orders client_id restc = .ok st) ∧
    (∀ e st_err, cancel_perp_order st orders order_id rest = .error (e, st_err) →
      e ≠ .InvalidOrderId →
      process_cancel_perp_order flag st orders order_id rest = .error e) ∧
    (∀ e st_err, cancel_perp_order_by_client_id st orders client_id restc =
        .error (e, st_err) →
      e ≠ .InvalidOrderId → e ≠ .ClientIdNotFound →
      process_cancel_perp_order_by_client_id flag st orders client_id restc = .error e) := by
  refine ⟨?_, ?_, ?_, ?_⟩
  · intro hnone
    unfold process_cancel_perp_order cancel_perp_order
    rw [hnone]
    exact ⟨by simp, by simp⟩
  · intro hnone
    unfold process_cancel_perp_order_by_client_id cancel_perp_order_by_client_id
    rw [hnone]
    exact ⟨by simp, by simp⟩
  · intro e st_err herr hne
    unfold process_cancel_perp_order
    rw [herr]
    simp [hne]
  · intro e st_err herr hne hne2
    unfold process_cancel_perp_order_by_client_id
    rw [herr]
    simp [hne, hne2]

theorem cancel_perp_order_invalid_id_ok_witness :
    (process_cancel_perp_order false (0 : Nat) [] 1 (fun _ => .ok 7) =
      .error .InvalidOrderId ∧
     process_cancel_perp_order true (0 : Nat) [] 1 (fun _ => .ok 7) = .ok 0) ∧
    (process_cancel_perp_order_by_client_id false (0 : Nat) [] 2 (fun _ _ => .ok 7) =
      .error .ClientIdNotFound ∧
     process_cancel_perp_order_by_client_id true (0 : Nat) [] 2 (fun _ _ => .ok 7) =
      .ok 0) :=
  have h := cancel_perp_order_invalid_id_ok (0 : Nat) [] 1 2 (fun _ => .ok 7)
    (fun _ _ => .ok 7) false
  ⟨h.1 (by rfl), h.2.1 (by rfl)⟩

/-- The `u64::MAX` withdraw-all sentinel. -/
def U64_MAX : Nat := 2 ^ 64 - 1

/-- The withdrawal-amount logic of `withdraw` (`processor.rs`): a quantity
of `u64::MAX` without `allow_borrow` is a withdraw-all request for the
floor of the account's native deposit; otherwise the requested amount,
which without `allow_borrow` must not exceed the native deposit
(`InsufficientFunds`).  Returns the native amount handed to
`checked_change_net`; the Initial-health check later in the call is a
separate gate. -/
def withdraw_amount (native_deposit : Int) (quantity : Nat) (allow_borrow : Bool) :
    Except LyraeError Int :=
  let w := if quantity = U64_MAX ∧ allow_borrow = false then fpFloor native_deposit
    else fromNum (quantity : Int)
  if w ≤ native_deposit ∨ allow_borrow = true then .ok w
  else .error .InsufficientFunds

theorem fpFloor_le (x : Int) : fpFloor x ≤ x := by
  unfold fpFloor
  rw [Int.fdiv_eq_ediv _ (le_of_lt FRAC_pos)]
  exact Int.ediv_mul_le _ (ne_of_gt FRAC_pos)

/-- C9: withdrawing `u64::MAX` without `allow_borrow` withdraws the floor
of the entire native deposit rather than `2^64 − 1` units and always passes
the deposit check; any other quantity above the native deposit without
`allow_borrow` fails with `InsufficientFunds`. -/
theorem withdraw_u64_max_sentinel (native_deposit : Int) (quantity : Nat) :
    withdraw_amount native_deposit U64_MAX false = .ok (fpFloor native_deposit) ∧
    (quantity ≠ U64_MAX → native_deposit < fromNum (quantity : Int) →
      withdraw_amount native_deposit quantity false = .error .InsufficientFunds) := by
  constructor
  · have hw : (if U64_MAX = U64_MAX ∧ false = false then fpFloor native_deposit
        else fromNum (U64_MAX : Int)) = fpFloor native_deposit := if_pos ⟨rfl, rfl⟩
    unfold withdraw_amount
    rw [hw, if_pos (Or.inl (fpFloor_le native_deposit))]
  · intro hq hlt
    have hw : (if quantity = U64_MAX ∧ false = false then fpFloor native_deposit
        else fromNum (quantity : Int)) = fromNum (quantity : Int) :=
      if_neg (fun hc => hq hc.1)
    have hcond : ¬(fromNum (quantity : Int) ≤ native_deposit ∨ (false : Bool) = true) := by
      rintro (h | h)
      · exact absurd h (not_le.mpr hlt)
      · exact absurd h (by simp)
    unfold withdraw_amount
    rw [hw, if_neg hcond]

theorem withdraw_u64_max_sentinel_witness :
    withdraw_amount (2 * FRAC) 3 false = .error .InsufficientFunds :=
  (withdraw_u64_max_sentinel (2 * FRAC) 3).2 (by decide) (by decide)

/-- The risk parameters of a perp market used by `liquidate_perp_market`:
Initial weights, liquidation fee (`I80F48` bit patterns) and the base lot
size (an `i64`). -/
structure PerpMarketInfo where
  init_asset_weight : Int
  init_liab_weight : Int
  liquidation_fee : Int
  base_lot_size : Int
  deriving DecidableEq, Repr

/-- The transfer computation of `liquidate_perp_market` (`processor.rs`):
for a long liqee the request must be positive and the transfer is capped by
`ceil(-init_health / health_per_lot)` with
`health_per_lot = lot_price × (1 − initAssetWeight − liquidationFee)` and
by the liqee's base position; the quote side moves
`-base_transfer × base_lot_size × price × (1 − liquidationFee)`.  For a
short liqee everything mirrors with floor, `max`, the Initial liability
weight and `1 + liquidationFee`.  Returns the base lots and the quote
amount transferred from the liqee to the liquidator. -/
def liquidate_perp_market_transfer (pmi : PerpMarketInfo) (price init_health : Int)
    (base_transfer_request liqee_base_position : Int) : Except LyraeError (Int × Int) :=
  let lot_price := fpMul price (fromNum pmi.base_lot_size)
  if 0 < liqee_base_position then
    if ¬0 < base_transfer_request then .error .InvalidParam
    else
      let health_per_lot :=
        fpMul lot_price (ONE - pmi.init_asset_weight - pmi.liquidation_fee)
      let max_transfer := ceilToInt (fpDiv (-init_health) health_per_lot)
      let base_transfer := min (min max_transfer base_transfer_request) liqee_base_position
      let quote_transfer :=
        fpMul (fpMul (fromNum (-base_transfer * pmi.base_lot_size)) price)
          (ONE - pmi.liquidation_fee)
      .ok (base_transfer, quote_transfer)
  else
    if ¬base_transfer_request < 0 then .error .InvalidParam
    else
      let health_per_lot :=
        fpMul lot_price (ONE - pmi.init_liab_weight + pmi.liquidation_fee)
      let max_transfer := floorToInt (fpDiv (-init_health) health_per_lot)
      let base_transfer := max (max max_transfer base_transfer_request) liqee_base_position
      let quote_transfer :=
        fpMul (fpMul (fromNum (-base_transfer * pmi.base_lot_size)) price)
          (ONE + pmi.liquidation_fee)
      .ok (base_transfer, quote_transfer)

/-- Modelled from the spec: `PerpAccount::change_base_position` lives in
the state module outside `src/`; on the account it adds the transferred
lots to the base position (the open-interest bookkeeping it also performs
concerns the market, not the account). -/
def change_base_position (pa : PerpAccount) (delta : Int) : PerpAccount :=
  { pa with base_position := pa.base_position + delta }

/-- Modelled from the spec (§4.4): the Initial health of an account holding
only a quote deposit and one long perp position — the quote deposit counts
at weight one, and the perp contributes its quote position plus the
oracle-priced base exposure times the Initial asset weight. -/
def spec_init_health_long (quote_deposit : Int) (pmi : PerpMarketInfo) (price : Int)
    (base_position quote_position : Int) : Int :=
  quote_deposit + quote_position +
    fpMul (fpMul (fromNum (base_position * pmi.base_lot_size)) price) pmi.init_asset_weight

/-- The perp market of the documented scenario: Initial asset weight `0.9`,
Initial liability weight `1.1`, liquidation fee `0.025` (each rounded to
`I80F48` as the program stores them), base lot size `100`.  With six
decimals for both tokens one lot is `10^-4` BTC. -/
def c6pmi : PerpMarketInfo :=
  ⟨Int.fdiv (9 * FRAC) 10, Int.fdiv (11 * FRAC) 10, Int.fdiv (25 * FRAC) 1000, 100⟩

/-- The scenario oracle price: 9400 quote units per base unit. -/
def c6price : Int := 9400 * FRAC

/-- The liqee's quote deposit: 10,000 USDC in native units. -/
def c6deposit : Int := 10000000000 * FRAC

/-- The liqee's base position: 10 BTC as `10^5` lots of `10^-4` BTC. -/
def c6base : Int := 100000

/-- The liqee's quote position: −100,000 USDC in native units. -/
def c6quote : Int := -100000000000 * FRAC

/-- The liqee's pre-liquidation Initial health in the scenario (≈ −5400
USDC, matching the source's own doc comment `init_health = -5400`). -/
def c6init_health : Int := spec_init_health_long c6deposit c6pmi c6price c6base c6quote

/-- The base/quote transfer of the scenario `liquidate_perp_market` call,
with the liquidator requesting the full position. -/
def c6pair : Int × Int :=
  match liquidate_perp_market_transfer c6pmi c6price c6init_health 100000 c6base with
  | .ok p => p
  | .error _ => (0, 0)

/-- The liqee's perp account after the scenario transfer. -/
def c6liqee_post : PerpAccount :=
  (transfer_quote_position (change_base_position ⟨c6base, c6quote, 0, 0⟩ (-c6pair.1))
    (change_base_position ⟨0, 0, 0, 0⟩ c6pair.1) c6pair.2).1

/-- The liquidator's perp account after the scenario transfer. -/
def c6liqor_post : PerpAccount :=
  (transfer_quote_position (change_base_position ⟨c6base, c6quote, 0, 0⟩ (-c6pair.1))
    (change_base_position ⟨0, 0, 0, 0⟩ c6pair.1) c6pair.2).2

/-- The liqee's post-liquidation Initial health in the scenario. -/
def c6post_health : Int :=
  spec_init_health_long c6deposit c6pmi c6price c6liqee_post.base_position
    c6liqee_post.quote_position

/-- C6: on the documented scenario (price 9400, liquidation fee 0.025,
liqee deposit 10,000, base position 10, quote position −100,000) the
`liquidate_perp_market` call succeeds and leaves the liqee with base
position 2.3404 BTC (23404 lots), quote position ≈ −29799.77 USDC and
Initial health ≈ 0.018 USDC, while the liquidator receives 7.6596 BTC
(76596 lots) and quote position ≈ −70200.23 USDC; quote bounds are in
native units of `10^-6` USDC times `2^48`. -/
theorem liquidate_perp_market_scenario :
    (liquidate_perp_market_transfer c6pmi c6price c6init_health 100000 c6base).isOk = true ∧
    c6liqee_post.base_position = 23404 ∧
    (-29799770000 * FRAC < c6liqee_post.quote_position ∧
      c6liqee_post.quote_position < -29799760000 * FRAC) ∧
    (17999 * FRAC < c6post_health ∧ c6post_health < 18001 * FRAC) ∧
    c6liqor_post.base_position = 76596 ∧
    (-70200240000 * FRAC < c6liqor_post.quote_position ∧
      c6liqor_post.quote_position < -70200230000 * FRAC) := by
  refine ⟨by decide, by decide, ⟨by decide, by decide⟩, ⟨by decide, by decide⟩,
    by decide, by decide, by decide⟩

end Lyrae
